import Mathlib

/-!
# Verification of the `toolkit` template engine (`src/lib/string.js`)

This file gives a shallow embedding of the string-template engine of the
repository: the string helpers `clean`, `wrap`, `unwrap`, the placeholder
matcher built by `Template.getPlaceholderPattern`, and the `Template` class
with its `render`, `fork`, `validate`, and `getRemainingPlaceholders`
operations.  JavaScript strings are modelled as `List Char` / `String`,
JavaScript runtime values appearing in replacement maps as `JsVal`, and
exceptions as `Except`.
-/

namespace Toolkit

/-! ## The placeholder matcher

`Template.getPlaceholderPattern(start, end)` builds the regular expression

  `(?<![<start>|<start[0]>])<start>[A-Za-z0-9-_]+?<end>(?![<end>|<end[0]>] )`

with the `g` flag.  The lookbehind and lookahead classes consist of the
characters of the respective tag together with the literal `|` interpolated
into the class (the `<tag[0]>` member is redundant, being a character of the
tag).  The functions below implement `value.matchAll(pattern)` for this
pattern shape directly: a match is a start tag, a shortest nonempty run of
word characters, and an end tag, subject to the lookaround exclusions; the
scan emits matches left to right and resumes immediately after each match. -/

/-- The character class `[A-Za-z0-9-_]` of the placeholder pattern. -/
def wordChar (c : Char) : Bool :=
  ('A' ≤ c && c ≤ 'Z') || ('a' ≤ c && c ≤ 'z') || ('0' ≤ c && c ≤ '9') ||
    c = '-' || c = '_'

/-- The negative lookahead `(?![<endclass>] )`: the match is rejected when the
text that follows starts with a character of the end class followed by a
space. -/
def lookaheadOk (endSet : List Char) (s : List Char) : Bool :=
  match s with
  | c :: d :: _ => !(endSet.contains c && d = ' ')
  | _ => true

/-- Body of the non-greedy `<start>[A-Za-z0-9-_]+?<end>` match: given the text
after the start tag, returns the length of the shortest nonempty run of word
characters that is immediately followed by the end tag and passes the negative
lookahead. -/
def matchBody (endTag endSet : List Char) : List Char → Option Nat
  | [] => none
  | c :: rest =>
    if wordChar c then
      if endTag.isPrefixOf rest && lookaheadOk endSet (rest.drop endTag.length) then
        some 1
      else
        (matchBody endTag endSet rest).map (· + 1)
    else
      none

/-- Attempts a placeholder match at the current position (`prev` is the
character just before the position, inspected by the negative lookbehind
`(?<![<startclass>])`).  Returns the total length of the match. -/
def matchAt (startTag endTag : List Char) (lbSet endSet : List Char)
    (prev : Option Char) (s : List Char) : Option Nat :=
  match prev with
  | some p => if lbSet.contains p then none else
      if startTag.isPrefixOf s then
        (matchBody endTag endSet (s.drop startTag.length)).map
          (fun k => startTag.length + k + endTag.length)
      else none
  | none =>
      if startTag.isPrefixOf s then
        (matchBody endTag endSet (s.drop startTag.length)).map
          (fun k => startTag.length + k + endTag.length)
      else none

/-- The `matchAll` scan: walks the string one character at a time; `skip`
counts the characters of the current match still to be passed over (the next
match attempt happens at the position right after the previous match, as with
the regular expression's `lastIndex`), and `prev` is the previously consumed
character. -/
def scanGo (startTag endTag lbSet endSet : List Char) :
    Nat → Option Char → List Char → List String
  | _, _, [] => []
  | skip+1, _, c :: rest => scanGo startTag endTag lbSet endSet skip (some c) rest
  | 0, prev, c :: rest =>
    match matchAt startTag endTag lbSet endSet prev (c :: rest) with
    | some n => ⟨(c :: rest).take n⟩ ::
        scanGo startTag endTag lbSet endSet (n - 1) (some c) rest
    | none => scanGo startTag endTag lbSet endSet 0 (some c) rest

/-- `value.matchAll(Template.getPlaceholderPattern(start, end))`, collecting
the matched tokens in order. -/
def findPlaceholders (startTag endTag : String) (value : String) : List String :=
  scanGo startTag.toList endTag.toList
    ('|' :: startTag.toList) ('|' :: endTag.toList) 0 none value.toList

/-! ## String helpers (`split`, `wrap`, `unwrap`, `clean` and the JavaScript
string primitives they are built from) -/

/-- `String.prototype.replaceAll` with a string pattern: every non-overlapping
occurrence, scanning left to right, is replaced.  `skip` counts pattern
characters of the previous match still to be consumed. -/
def replaceAllGo (pat repl : List Char) : Nat → List Char → List Char
  | _, [] => []
  | skip+1, _ :: rest => replaceAllGo pat repl skip rest
  | 0, c :: rest =>
    if pat ≠ [] ∧ pat.isPrefixOf (c :: rest) then
      repl ++ replaceAllGo pat repl (pat.length - 1) rest
    else
      c :: replaceAllGo pat repl 0 rest

/-- `value.replaceAll(pat, repl)` on character lists. -/
def jsReplaceAll (pat repl s : List Char) : List Char :=
  replaceAllGo pat repl 0 s

/-- `String.prototype.replace` with a string pattern: only the first
occurrence is replaced. -/
def jsReplaceFirst (pat repl : List Char) : List Char → List Char
  | [] => []
  | c :: rest =>
    if pat ≠ [] ∧ pat.isPrefixOf (c :: rest) then
      repl ++ (c :: rest).drop pat.length
    else
      c :: jsReplaceFirst pat repl rest

/-- Index of the first occurrence of `pat` in `s` (`String.prototype.indexOf`
returns this index, or `-1` when there is none). -/
def firstIdx (pat : List Char) : List Char → Option Nat
  | [] => if pat.isPrefixOf ([] : List Char) then some 0 else none
  | c :: rest =>
    if pat.isPrefixOf (c :: rest) then some 0
    else (firstIdx pat rest).map (· + 1)

/-- `value.indexOf(pat)`. -/
def jsIndexOf (value pat : String) : Int :=
  match firstIdx pat.toList value.toList with
  | some i => (i : Int)
  | none => -1

/-- `value.includes(pat)` / substring containment. -/
def jsIncludes (value pat : String) : Bool :=
  (firstIdx pat.toList value.toList).isSome

/-- `String.prototype.substring(a, b)`: both indices are clamped to
`[0, length]` and swapped when in the wrong order. -/
def jsSubstring (s : String) (a b : Int) : String :=
  let len : Int := (s.toList.length : Int)
  let a' := min (max a 0) len
  let b' := min (max b 0) len
  let lo := (min a' b').toNat
  let hi := (max a' b').toNat
  ⟨(s.toList.take hi).drop lo⟩

/-- `wrap(value, start, end)` from `src/lib/string.js`:
returns `` `${start}${value}${end}` ``. -/
def wrap (value startTag endTag : String) : String :=
  startTag ++ value ++ endTag

/-- `unwrap(value, start, end)` from `src/lib/string.js`:
`value.substring(value.indexOf(start) + start.length, value.indexOf(end))`. -/
def unwrap (value startTag endTag : String) : String :=
  jsSubstring value (jsIndexOf value startTag + startTag.toList.length)
    (jsIndexOf value endTag)

/-- Whether `pat` occurs as a contiguous segment of `s`
(`value.includes(pat)` on character lists). -/
def containsSeg (pat : List Char) : List Char → Bool
  | [] => pat.isPrefixOf ([] : List Char)
  | c :: rest => pat.isPrefixOf (c :: rest) || containsSeg pat rest

def isPrefixOf_length_le : ∀ (p s : List Char), p.isPrefixOf s = true →
    p.length ≤ s.length := by
  intro p
  induction p with
  | nil => intro s _; simp
  | cons a as ih =>
    intro s h
    match s with
    | [] => simp [List.isPrefixOf] at h
    | b :: bs =>
      simp only [List.isPrefixOf, Bool.and_eq_true] at h
      have := ih bs h.2
      simp [List.length_cons]
      omega

def replaceAllGo_length_le (pat repl : List Char)
    (hle : repl.length ≤ pat.length) :
    ∀ (s : List Char) (skip : Nat),
      (replaceAllGo pat repl skip s).length ≤ s.length - min skip s.length := by
  intro s
  induction s with
  | nil => intro skip; simp [replaceAllGo]
  | cons c rest ih =>
    intro skip
    match skip with
    | skip'+1 =>
      have := ih skip'
      simp only [replaceAllGo]
      simp [List.length_cons]
      omega
    | 0 =>
      rw [replaceAllGo]
      split
      · rename_i hcond
        have hpre : pat.length ≤ rest.length + 1 := by
          have := isPrefixOf_length_le pat (c :: rest) hcond.2
          simpa using this
        have h1 : 1 ≤ pat.length := by
          have : pat ≠ [] := hcond.1
          cases pat with
          | nil => exact absurd rfl this
          | cons _ _ => simp
        have := ih (pat.length - 1)
        simp only [List.length_append, List.length_cons]
        omega
      · have := ih 0
        simp [List.length_cons]
        omega

def replaceAllGo_length_lt (pat repl : List Char)
    (hlt : repl.length < pat.length) :
    ∀ (s : List Char), containsSeg pat s = true →
      (replaceAllGo pat repl 0 s).length < s.length := by
  intro s
  induction s with
  | nil =>
    intro hc
    simp only [containsSeg] at hc
    have : pat = [] := by
      cases pat with
      | nil => rfl
      | cons a as => simp [List.isPrefixOf] at hc
    subst this
    simp at hlt
  | cons c rest ih =>
    intro hc
    rw [replaceAllGo]
    split
    · rename_i hcond
      have hpre : pat.length ≤ rest.length + 1 := by
        have := isPrefixOf_length_le pat (c :: rest) hcond.2
        simpa using this
      have h1 : 1 ≤ pat.length := by
        have : pat ≠ [] := hcond.1
        cases pat with
        | nil => exact absurd rfl this
        | cons _ _ => simp
      have hb := replaceAllGo_length_le pat repl (le_of_lt hlt) rest (pat.length - 1)
      simp only [List.length_append, List.length_cons]
      omega
    · rename_i hcond
      simp only [containsSeg, Bool.or_eq_true] at hc
      have hrest : containsSeg pat rest = true := by
        rcases hc with hc | hc
        · by_cases hnil : pat = []
          · subst hnil; simp at hlt
          · exact absurd ⟨hnil, hc⟩ hcond
        · exact hc
      have := ih hrest
      simp [List.length_cons]
      omega

def replaceAllGo_eq_self (pat repl : List Char) :
    ∀ (s : List Char), containsSeg pat s = false →
      replaceAllGo pat repl 0 s = s := by
  intro s
  induction s with
  | nil => intro _; simp [replaceAllGo]
  | cons c rest ih =>
    intro hc
    simp only [containsSeg, Bool.or_eq_false_iff] at hc
    rw [replaceAllGo]
    rw [if_neg (by
      intro hcond
      rw [hcond.2] at hc
      simp at hc)]
    rw [ih hc.2]

def replaceAllGo_single_length (a b : Char) :
    ∀ (s : List Char), (replaceAllGo [a] [b] 0 s).length = s.length := by
  intro s
  induction s with
  | nil => simp [replaceAllGo]
  | cons c rest ih =>
    rw [replaceAllGo]
    split
    · simp only [List.length_append, List.length_singleton, List.length_cons,
        List.length_nil, Nat.zero_add, Nat.add_sub_cancel, Nat.sub_self]
      omega
    · simp only [List.length_cons]
      omega

/-- One pass of `clean`:
``value.replaceAll("\n", " ").replaceAll("  ", " ")``. -/
def cleanStep (s : List Char) : List Char :=
  jsReplaceAll [' ', ' '] [' '] (jsReplaceAll ['\n'] [' '] s)

def cleanStep_length_lt (s : List Char)
    (h : containsSeg [' ', ' '] (cleanStep s) = true) :
    (cleanStep s).length < s.length := by
  unfold cleanStep jsReplaceAll at *
  by_cases hc : containsSeg [' ', ' '] (replaceAllGo ['\n'] [' '] 0 s) = true
  · have := replaceAllGo_length_lt [' ', ' '] [' '] (by simp)
      (replaceAllGo ['\n'] [' '] 0 s) hc
    have hlen := replaceAllGo_single_length '\n' ' ' s
    omega
  · rw [replaceAllGo_eq_self _ _ _ (Bool.eq_false_iff.mpr hc)] at h
    exact absurd h (Bool.eq_false_iff.mp (Bool.eq_false_iff.mpr hc))

/-- `clean(value)` from `src/lib/string.js`: replaces newlines by spaces and
collapses double spaces, recursing while a double space remains. -/
def cleanL (s : List Char) : List Char :=
  if h : containsSeg [' ', ' '] (cleanStep s) = true then cleanL (cleanStep s)
  else cleanStep s
  termination_by s.length
  decreasing_by
    exact cleanStep_length_lt s h

/-- `clean` on `String`. -/
def clean (s : String) : String :=
  ⟨cleanL s.toList⟩

/-! ## The `Template` class

`Template` (in `src/lib/string.js`) extends `String`; the instance fields are
computed once in the constructor.  The JavaScript values that can appear in a
replacement map (`replacements`, constructor `defaults`, render `overrides`)
are modelled by `JsVal`; an absent / `undefined` entry is modelled by a
lookup returning `none`, and the stored "unset" sentinel `null` by
`JsVal.null`.  Prototype-inherited properties of plain lookup objects are not
modelled (no claim exercises them); the own index/length properties of a
string are (they matter for `fromTemplate`, which passes a string where the
constructor expects its `defaults` object). -/

inductive JsVal where
  | str (s : String)
  | num (n : Int)
  | bool (b : Bool)
  | sym (description : String)
  | null
  deriving DecidableEq, Repr

/-- `String(value)` for the values of `JsVal`. -/
def jsValToString : JsVal → String
  | .str s => s
  | .num n => toString n
  | .bool b => if b then "true" else "false"
  | .sym d => "Symbol(" ++ d ++ ")"
  | .null => "null"

/-- The symbol branch of `render`:
`value.toString().replace("Symbol(", "").replace(")", "")`. -/
def symRendered (d : String) : String :=
  ⟨jsReplaceFirst (")".toList) []
    (jsReplaceFirst ("Symbol(".toList) [] ("Symbol(" ++ d ++ ")").toList)⟩

/-- A map argument (constructor `defaults`, render `overrides`): property
lookup, `none` meaning the property is not defined (absent or `undefined`). -/
abbrev JsLookup : Type := String → Option JsVal

/-- The empty object `{}`. -/
def emptyLookup : JsLookup := fun _ => none

/-- A `Template` instance: the fields set by the constructor.  The `pattern`
field is determined by `startTag`/`endTag` (its matcher is `findPlaceholders
startTag endTag`), so it is not duplicated here. -/
structure Template where
  source : String
  startTag : String
  endTag : String
  placeholders : List String
  placeholdersMap : List (String × String)
  replacements : List (String × JsVal)
  deriving DecidableEq, Repr

/-- `#getPlaceholdersMap`: iterates `placeholders`, defining one property per
token (a repeated `Object.defineProperty` with the same key and value is a
no-op, so duplicate tokens collapse onto the first entry); the value is
`unwrap(placeholder, startTag, endTag)`. -/
def buildMapGo (startTag endTag : String) (seen : List String) :
    List String → List (String × String)
  | [] => []
  | ph :: rest =>
    if ph ∈ seen then buildMapGo startTag endTag seen rest
    else (ph, unwrap ph startTag endTag) :: buildMapGo startTag endTag (ph :: seen) rest

/-- `#getInitialReplacements`: iterates `placeholdersMap` in insertion order
and stores `defaults[property]`, or `null` when that is undefined. -/
def buildReplGo (defaults : JsLookup) (seen : List String) :
    List (String × String) → List (String × JsVal)
  | [] => []
  | (_, prop) :: rest =>
    if prop ∈ seen then buildReplGo defaults seen rest
    else (prop, (defaults prop).getD .null) :: buildReplGo defaults (prop :: seen) rest

/-- The constructor body once the tags have been resolved: stores the source,
scans it (via `this.valueOf()`, i.e. the raw source string) for placeholders,
and builds `placeholdersMap` and `replacements`. -/
def buildTemplate (source startTag endTag : String) (defaults : JsLookup) :
    Template :=
  let phs := findPlaceholders startTag endTag source
  let map := buildMapGo startTag endTag [] phs
  { source := source
    startTag := startTag
    endTag := endTag
    placeholders := phs
    placeholdersMap := map
    replacements := buildReplGo defaults [] map }

/-- `new Template(source, tags?, defaults?)`: `tags?.[0] || "{"` and
`tags?.[1] || "}"` (an empty-string tag is falsy and falls back to the
default). -/
def newTemplate (source : String) (tags : Option (String × String))
    (defaults : JsLookup) : Template :=
  let st := match tags with
    | some (s, _) => if s = "" then "\x7b" else s
    | none => "\x7b"
  let en := match tags with
    | some (_, e) => if e = "" then "\x7d" else e
    | none => "\x7d"
  buildTemplate source st en defaults

/-- `getRemainingPlaceholders(value)`: `value.matchAll(this.pattern)`,
collecting the matched tokens. -/
def getRemainingPlaceholders (t : Template) (value : String) : List String :=
  findPlaceholders t.startTag t.endTag value

/-- The per-placeholder resolution of `render`: the override when it is
defined (`is.isDefined`, i.e. not `undefined`), else the stored default. -/
def resolveValue (t : Template) (overrides : JsLookup) (prop : String) : JsVal :=
  match overrides prop with
  | some v => v
  | none => (t.replacements.lookup prop).getD .null

/-- One iteration of the `render` loop for the map entry
`(placeholder, prop)`: resolve the value, convert a symbol to its
description, and, when the value is non-nullable, replace every occurrence
of the placeholder in the working string. -/
def renderStep (t : Template) (overrides : JsLookup)
    (acc : String) (entry : String × String) : String :=
  let v := resolveValue t overrides entry.2
  let v := match v with
    | .sym d => JsVal.str (symRendered d)
    | x => x
  if v ≠ JsVal.null then
    ⟨jsReplaceAll entry.1.toList (jsValToString v).toList acc.toList⟩
  else acc

/-- The substitution part of `render`: starting from `this.valueOf()` (the
source string), iterate over `placeholdersMap` in insertion order. -/
def renderCore (t : Template) (overrides : JsLookup) : String :=
  t.placeholdersMap.foldl (renderStep t overrides) t.source

/-- `` `${this}` `` = `this.toString()` = `this.render()` (no overrides, no
validation). -/
def templateToString (t : Template) : String :=
  renderCore t emptyLookup

/-- The payload of the error thrown by `validate`. -/
structure TemplateValidationError where
  template : String
  missingReplacements : List String
  deriving DecidableEq, Repr

instance {ε α : Type} [DecidableEq ε] [DecidableEq α] :
    DecidableEq (Except ε α) := fun x y =>
  match x, y with
  | .ok a, .ok b =>
    if h : a = b then .isTrue (by rw [h])
    else .isFalse (fun hh => h (Except.ok.inj hh))
  | .ok _, .error _ => .isFalse (fun hh => Except.noConfusion hh)
  | .error _, .ok _ => .isFalse (fun hh => Except.noConfusion hh)
  | .error a, .error b =>
    if h : a = b then .isTrue (by rw [h])
    else .isFalse (fun hh => h (Except.error.inj hh))

/-- `validate(value)`: throws when placeholders remain in `value`, carrying
the template's string form and the remaining tokens. -/
def validate (t : Template) (value : String) :
    Except TemplateValidationError Unit :=
  let remaining := getRemainingPlaceholders t value
  if remaining.length > 0 then
    .error { template := templateToString t, missingReplacements := remaining }
  else .ok ()

/-- `render(replacements?, validate?)`: substitute, then validate the result
when asked; a validation failure propagates as the thrown error. -/
def render (t : Template) (overrides : JsLookup) (shouldValidate : Bool) :
    Except TemplateValidationError String :=
  let result := renderCore t overrides
  if shouldValidate then
    match validate t result with
    | .error e => .error e
    | .ok _ => .ok result
  else .ok result

/-- `s[i]` on a JavaScript string: the one-character string, or `undefined`
out of range. -/
def charAtString (s : String) (i : Nat) : Option String :=
  (s.toList[i]?).map Char.toString

/-- Property lookup on a string used as an object: the own properties are the
canonical indices `"0" … "len-1"` and `"length"`.  (Prototype methods are not
modelled.) -/
def stringDefaults (s : String) : JsLookup := fun prop =>
  if prop = "length" then some (.num (s.toList.length : Int))
  else
    match (List.range s.toList.length).find? (fun i => toString i = prop) with
    | some i => (s.toList[i]?).map (fun c => .str (Char.toString c))
    | none => none

/-- `Template.fromTemplate(template, replacements)`:
`new Template(template.render(replacements), template.startTag,
template.endTag)`.  The constructor's second parameter is the `tags` pair and
its third the `defaults` object, so `tags?.[0]`/`tags?.[1]` index into the
`startTag` string (`tags?.[1]` is its second character, usually undefined,
falling back to `"}"`), and `defaults` property lookups index into the
`endTag` string. -/
def fromTemplate (t : Template) (overrides : JsLookup) : Template :=
  let src := renderCore t overrides
  let st := (charAtString t.startTag 0).getD "\x7b"
  let en := (charAtString t.startTag 1).getD "\x7d"
  buildTemplate src st en (stringDefaults t.endTag)

/-- `fork(replacements)`: `Template.fromTemplate(this, replacements)`. -/
def fork (t : Template) (overrides : JsLookup) : Template :=
  fromTemplate t overrides

/-- State-passing form of `render`: the method body assigns only the local
`result` variable and never writes a field of the receiver (`matchAll` also
operates on a clone of `this.pattern`), so the translated method returns the
receiver as it was. -/
def renderJS (t : Template) (overrides : JsLookup) (shouldValidate : Bool) :
    Except TemplateValidationError String × Template :=
  (render t overrides shouldValidate, t)

/-- State-passing form of `fork`: builds a fresh `Template` from the rendered
source and performs no write to the receiver. -/
def forkJS (t : Template) (overrides : JsLookup) : Template × Template :=
  (fork t overrides, t)

/-! ## Supporting lemmas -/

theorem mem_replaceAllGo (pat repl : List Char) :
    ∀ (s : List Char) (skip : Nat) (a : Char),
      a ∈ replaceAllGo pat repl skip s → a ∈ s ∨ a ∈ repl := by
  intro s
  induction s with
  | nil => intro skip a h; simp [replaceAllGo] at h
  | cons c rest ih =>
    intro skip a h
    match skip with
    | skip'+1 =>
      rw [replaceAllGo] at h
      rcases ih skip' a h with h' | h'
      · exact Or.inl (List.mem_cons_of_mem _ h')
      · exact Or.inr h'
    | 0 =>
      rw [replaceAllGo] at h
      split at h
      · rw [List.mem_append] at h
        rcases h with h | h
        · exact Or.inr h
        · rcases ih _ a h with h' | h'
          · exact Or.inl (List.mem_cons_of_mem _ h')
          · exact Or.inr h'
      · rw [List.mem_cons] at h
        rcases h with h | h
        · exact Or.inl (by simp [h])
        · rcases ih 0 a h with h' | h'
          · exact Or.inl (List.mem_cons_of_mem _ h')
          · exact Or.inr h'

theorem not_mem_replaceAll_pat_single (b : Char) (x : Char) (hbx : x ≠ b) :
    ∀ (s : List Char) (skip : Nat), x ∉ replaceAllGo [x] [b] skip s := by
  intro s
  induction s with
  | nil => intro skip; simp [replaceAllGo]
  | cons c rest ih =>
    intro skip
    match skip with
    | skip'+1 => rw [replaceAllGo]; exact ih skip'
    | 0 =>
      rw [replaceAllGo]
      split
      · rename_i hcond
        intro hmem
        rw [List.mem_append] at hmem
        rcases hmem with hmem | hmem
        · rw [List.mem_singleton] at hmem; exact hbx hmem
        · exact ih _ hmem
      · rename_i hcond
        intro hmem
        rw [List.mem_cons] at hmem
        rcases hmem with hmem | hmem
        · apply hcond
          constructor
          · simp
          · subst hmem; simp [List.isPrefixOf]
        · exact ih 0 hmem

theorem containsSeg_single (a : Char) :
    ∀ (s : List Char), containsSeg [a] s = s.contains a := by
  intro s
  induction s with
  | nil => simp [containsSeg, List.isPrefixOf]
  | cons c rest ih =>
    rw [containsSeg, ih]
    show (([a].isPrefixOf (c :: rest)) || rest.contains a) = (c :: rest).contains a
    by_cases hac : a = c <;>
      simp [List.isPrefixOf, List.contains_cons, hac]

theorem foldl_ext_mem {α β : Type} (f g : β → α → β) :
    ∀ (l : List α) (i : β), (∀ b a, a ∈ l → f b a = g b a) →
      l.foldl f i = l.foldl g i := by
  intro l
  induction l with
  | nil => intro i _; rfl
  | cons x xs ih =>
    intro i h
    simp only [List.foldl_cons]
    rw [h i x (by simp)]
    exact ih _ (fun b a ha => h b a (List.mem_cons_of_mem _ ha))

theorem buildReplGo_lookup (d : JsLookup) :
    ∀ (entries : List (String × String)) (seen : List String) (prop : String),
      prop ∈ entries.map Prod.snd → prop ∉ seen →
      (buildReplGo d seen entries).lookup prop = some ((d prop).getD .null) := by
  intro entries
  induction entries with
  | nil => intro seen prop h _; simp at h
  | cons e rest ih =>
    obtain ⟨k, q⟩ := e
    intro seen prop hmem hseen
    have hmem' : prop = q ∨ prop ∈ rest.map Prod.snd := by simpa using hmem
    rw [buildReplGo]
    by_cases hq : q ∈ seen
    · rw [if_pos hq]
      have hrest : prop ∈ rest.map Prod.snd := by
        rcases hmem' with h | h
        · exact absurd (h ▸ hq) hseen
        · exact h
      exact ih seen prop hrest hseen
    · rw [if_neg hq]
      by_cases hpq : prop = q
      · subst hpq
        simp [List.lookup]
      · have hne : (prop == q) = false := by simp [hpq]
        have hrest : prop ∈ rest.map Prod.snd := by
          rcases hmem' with h | h
          · exact absurd h hpq
          · exact h
        have hseen' : prop ∉ q :: seen := by simp [hpq, hseen]
        simp only [List.lookup, hne]
        exact ih (q :: seen) prop hrest hseen'

theorem resolveValue_buildTemplate (source st en : String) (d ov : JsLookup)
    (prop : String)
    (hmem : prop ∈ (buildTemplate source st en d).placeholdersMap.map Prod.snd) :
    resolveValue (buildTemplate source st en d) ov prop =
      ((ov prop).orElse (fun _ => d prop)).getD .null := by
  have hrepl : (buildTemplate source st en d).replacements =
      buildReplGo d [] (buildTemplate source st en d).placeholdersMap := rfl
  rw [resolveValue]
  match hov : ov prop with
  | some v => simp [hov]
  | none =>
    rw [hrepl, buildReplGo_lookup d _ [] prop hmem (by simp)]
    simp [hov]

theorem renderCore_merge (source st en : String) (d ov : JsLookup) :
    renderCore (buildTemplate source st en d) ov =
      renderCore (buildTemplate source st en
        (fun p => (ov p).orElse (fun _ => d p))) emptyLookup := by
  have hmap : (buildTemplate source st en d).placeholdersMap =
      (buildTemplate source st en
        (fun p => (ov p).orElse (fun _ => d p))).placeholdersMap := rfl
  have hsrc : (buildTemplate source st en d).source =
      (buildTemplate source st en
        (fun p => (ov p).orElse (fun _ => d p))).source := rfl
  rw [renderCore, renderCore, ← hmap, ← hsrc]
  apply foldl_ext_mem
  intro acc entry hentry
  have hprop : entry.2 ∈ (buildTemplate source st en d).placeholdersMap.map Prod.snd :=
    List.mem_map_of_mem Prod.snd hentry
  have h1 := resolveValue_buildTemplate source st en d ov entry.2 hprop
  have h2 := resolveValue_buildTemplate source st en
    (fun p => (ov p).orElse (fun _ => d p)) emptyLookup entry.2 (hmap ▸ hprop)
  rw [renderStep, renderStep, h1, h2]
  have : (emptyLookup entry.2).orElse
      (fun _ => (ov entry.2).orElse (fun _ => d entry.2)) =
      (ov entry.2).orElse (fun _ => d entry.2) := rfl
  rw [this]

theorem contains_eq_false_of_not_mem {l : List Char} {a : Char} (h : a ∉ l) :
    l.contains a = false := by
  induction l with
  | nil => rfl
  | cons c rest ih =>
    rw [List.contains_cons]
    have h1 : a ∉ rest := fun hm => h (List.mem_cons_of_mem _ hm)
    have h2 : a ≠ c := fun hm => h (by simp [hm])
    simp [ih h1, h2, h1]

theorem cleanL_no2 (s : List Char) :
    containsSeg [' ', ' '] (cleanL s) = false := by
  have H : ∀ (n : Nat) (s : List Char), s.length = n →
      containsSeg [' ', ' '] (cleanL s) = false := by
    intro n
    induction n using Nat.strong_induction_on with
    | _ n ih =>
      intro s hs
      rw [cleanL]
      split
      · rename_i hcond
        exact ih (cleanStep s).length
          (by rw [← hs]; exact cleanStep_length_lt s hcond) _ rfl
      · rename_i hcond
        simpa using hcond
  exact H s.length s rfl

theorem cleanStep_no_newline (s : List Char) : '\n' ∉ cleanStep s := by
  intro hmem
  unfold cleanStep jsReplaceAll at hmem
  rcases mem_replaceAllGo [' ', ' '] [' '] _ 0 '\n' hmem with h | h
  · exact not_mem_replaceAll_pat_single ' ' '\n' (by decide) s 0 h
  · simp at h

theorem cleanL_no_newline (s : List Char) : '\n' ∉ cleanL s := by
  have H : ∀ (n : Nat) (s : List Char), s.length = n → '\n' ∉ cleanL s := by
    intro n
    induction n using Nat.strong_induction_on with
    | _ n ih =>
      intro s hs
      rw [cleanL]
      split
      · rename_i hcond
        exact ih (cleanStep s).length
          (by rw [← hs]; exact cleanStep_length_lt s hcond) _ rfl
      · exact cleanStep_no_newline s
  exact H s.length s rfl

theorem cleanStep_of_cleanL (s : List Char) : cleanStep (cleanL s) = cleanL s := by
  have hnl : containsSeg ['\n'] (cleanL s) = false := by
    rw [containsSeg_single]
    exact contains_eq_false_of_not_mem (cleanL_no_newline s)
  unfold cleanStep jsReplaceAll
  rw [replaceAllGo_eq_self ['\n'] [' '] (cleanL s) hnl,
    replaceAllGo_eq_self [' ', ' '] [' '] (cleanL s) (cleanL_no2 s)]

theorem cleanL_idem (s : List Char) : cleanL (cleanL s) = cleanL s := by
  conv_lhs => rw [cleanL]
  rw [cleanStep_of_cleanL]
  simp [cleanL_no2 s]

/-! ## The claims -/

/-- C1: the claim states that `placeholders` never contains duplicate tokens
and that `"{x} and {x} again"` yields `["{x}"]`.  The runtime keeps every
match of the scan: `#getPlaceholders` returns `matchAll`'s matches
unfiltered, so the array is `["{x}", "{x}"]`; only the `placeholdersMap`
keys (and hence `replacements`) are de-duplicated, by property-key
collapsing.  This theorem evaluates the code at the failing input. -/
theorem spec_c1_duplicates_kept :
    (newTemplate "{x} and {x} again" none emptyLookup).placeholders =
      ["{x}", "{x}"] ∧
    (newTemplate "{x} and {x} again" none emptyLookup).placeholdersMap =
      [("{x}", "x")] := by decide

/-- C2: in `render`, each placeholder resolves to the `overrides` entry
whenever it is defined there (also for falsy defined values such as the
empty string), else to the stored default: rendering with overrides `ov` a
template built with defaults `d` equals rendering, with no overrides, the
template built with defaults "`ov` where defined, else `d`".  Moreover
`"Hi {name}"` with `{name: "Ana"}` renders to `"Hi Ana"`; with no override
and no default it renders to `"Hi {name}"` unchanged; and a defined empty
string override wins over a stored default. -/
theorem spec_c2_override_precedence (source : String)
    (tags : Option (String × String)) (d ov : JsLookup) :
    renderCore (newTemplate source tags d) ov =
      renderCore (newTemplate source tags
        (fun p => (ov p).orElse (fun _ => d p))) emptyLookup ∧
    render (newTemplate "Hi {name}" none emptyLookup)
      (fun p => if p = "name" then some (.str "Ana") else none) false =
      .ok "Hi Ana" ∧
    render (newTemplate "Hi {name}" none emptyLookup) emptyLookup false =
      .ok "Hi {name}" ∧
    renderCore (newTemplate "Hi {name}" none
        (fun p => if p = "name" then some (.str "default") else none))
      (fun p => if p = "name" then some (.str "") else none) = "Hi " := by
  refine ⟨?_, by decide, by decide, by decide⟩
  simp only [newTemplate]
  exact renderCore_merge source _ _ d ov

/-- C3: `validate(value)` throws exactly when the template's matcher finds
remaining placeholder tokens in `value`; the error carries the unresolved
tokens in occurrence order together with the template's string form; a
`render` call with `shouldValidate` false never throws; and the template
from `"Hi {name}"` rendered with `{}` and `validate=true` fails with
`missingReplacements == ["{name}"]`. -/
theorem spec_c3_validate (t : Template) (v : String) (ov : JsLookup) :
    ((∃ e, validate t v = .error e) ↔ getRemainingPlaceholders t v ≠ []) ∧
    (∀ e, validate t v = .error e →
      e.missingReplacements = getRemainingPlaceholders t v ∧
      e.template = templateToString t) ∧
    render t ov false = .ok (renderCore t ov) ∧
    render (newTemplate "Hi {name}" none emptyLookup) emptyLookup true =
      .error ⟨"Hi {name}", ["{name}"]⟩ := by
  refine ⟨⟨?_, ?_⟩, ?_, rfl, by decide⟩
  · rintro ⟨e, he⟩ hnil
    simp only [validate] at he
    rw [hnil] at he
    simp at he
  · intro hne
    refine ⟨⟨templateToString t, getRemainingPlaceholders t v⟩, ?_⟩
    simp only [validate]
    rw [if_pos (by simpa [List.length_pos] using hne)]
  · intro e he
    simp only [validate] at he
    by_cases hlen : (getRemainingPlaceholders t v).length > 0
    · rw [if_pos hlen] at he
      have h := Except.error.inj he
      rw [← h]
      exact ⟨rfl, rfl⟩
    · rw [if_neg hlen] at he
      exact absurd he (by simp)

/-- Witness for C3, at the template built from `"Hi {name}"` rendered with
no overrides and validation requested. -/
theorem spec_c3_validate_witness :
    render (newTemplate "Hi {name}" none emptyLookup) emptyLookup true =
      .error ⟨"Hi {name}", ["{name}"]⟩ :=
  (spec_c3_validate (newTemplate "Hi {name}" none emptyLookup) "Hi {name}"
    emptyLookup).2.2.2

/-- C4: the claim states that a forked template keeps the original's
`startTag` and `endTag`.  `Template.fromTemplate` calls
`new Template(source, template.startTag, template.endTag)`, passing the
start tag where the constructor expects the `[start, end]` pair and the end
tag where it expects `defaults`; so the fork's start tag is the first
character of the original start tag and its end tag is `tags?.[1] || "}"`,
i.e. the default `"}"` for any single-character start tag.  For the template
built from `"<a>"` with tags `["<", ">"]`, the fork's end tag is `"}"`,
not `">"`.  With default tags the slip is invisible and the claim's example
behaves as stated. -/
theorem spec_c4_fork_tags :
    (newTemplate "<a>" (some ("<", ">")) emptyLookup).endTag = ">" ∧
    (fork (newTemplate "<a>" (some ("<", ">")) emptyLookup) emptyLookup).endTag
      = "\x7d" ∧
    (fork (newTemplate "<a>" (some ("<", ">")) emptyLookup) emptyLookup).source
      = "<a>" ∧
    (fork (newTemplate "{a}-{b}" none emptyLookup)
      (fun p => if p = "a" then some (.str "1") else none)).placeholders
      = ["{b}"] ∧
    renderCore (fork (newTemplate "{a}-{b}" none emptyLookup)
      (fun p => if p = "a" then some (.str "1") else none)) emptyLookup
      = "1-{b}" ∧
    (fork (newTemplate "{a}-{b}" none emptyLookup)
      (fun p => if p = "a" then some (.str "1") else none)).source
      = "1-{b}" := by decide

/-- C5: the claim states that placeholder extraction operates on the cleaned
source.  `#getPlaceholders` scans `this.valueOf()`, the raw source, and
never calls `clean`; on `"{x}\x7d\ny"` the raw scan finds `["{x}"]` while the
scan of the cleaned source `"{x}\x7d y"` finds none (the collapsed space
triggers the `(?![}|}] )` lookahead exclusion). -/
theorem spec_c5_raw_scan :
    (newTemplate "{x}\x7d\ny" none emptyLookup).placeholders = ["{x}"] ∧
    clean "{x}\x7d\ny" = "{x}\x7d y" ∧
    (newTemplate (clean "{x}\x7d\ny") none emptyLookup).placeholders = [] := by
  have hclean : clean "{x}\x7d\ny" = "{x}\x7d y" := by
    simp +decide [clean, cleanL, cleanStep, jsReplaceAll]
  refine ⟨by decide, hclean, ?_⟩
  rw [hclean]
  decide

/-- C6: `clean` is idempotent and its result contains no two consecutive
spaces and no newline character. -/
theorem spec_c6_clean_idem (s : String) :
    clean (clean s) = clean s ∧
    containsSeg [' ', ' '] (clean s).toList = false ∧
    (clean s).toList.contains '\n' = false := by
  refine ⟨?_, cleanL_no2 s.toList,
    contains_eq_false_of_not_mem (cleanL_no_newline s.toList)⟩
  show (⟨cleanL (cleanL s.toList)⟩ : String) = ⟨cleanL s.toList⟩
  rw [cleanL_idem]

/-- C7: the claim states the wrap/unwrap round trip for every `s` containing
neither `start` nor `end`.  `unwrap` computes `value.indexOf(end)` from
position 0, not after `start`: for `s = "x"`, `start = "ab"`, `end = "b"`
(and `"x"` contains neither tag), the wrapped string is `"abxb"`, the first
`"b"` is at index 1 inside the start tag, and `substring(2, 1)` swaps its
arguments, returning `"b"` instead of `"x"`.  With non-overlapping tags such
as the default pair the round trip behaves as claimed. -/
theorem spec_c7_unwrap_wrap :
    jsIncludes "x" "ab" = false ∧
    jsIncludes "x" "b" = false ∧
    wrap "x" "ab" "b" = "abxb" ∧
    unwrap (wrap "x" "ab" "b") "ab" "b" = "b" ∧
    unwrap (wrap "x" "\x7b" "\x7d") "\x7b" "\x7d" = "x" := by decide

/-- C8: construction with default tags extracts exactly the valid
placeholders in first-seen order and rejects malformed candidates:
`"Hello {name}, you are {age} years old"` yields `["{name}", "{age}"]` with
map `{"{name}": "name", "{age}": "age"}`, and
`"{ not a placeholder } but {valid}"` yields `["{valid}"]`. -/
theorem spec_c8_extraction :
    (newTemplate "Hello {name}, you are {age} years old" none
      emptyLookup).placeholders = ["{name}", "{age}"] ∧
    (newTemplate "Hello {name}, you are {age} years old" none
      emptyLookup).placeholdersMap = [("{name}", "name"), ("{age}", "age")] ∧
    (newTemplate "{ not a placeholder } but {valid}" none
      emptyLookup).placeholders = ["{valid}"] := by decide

/-- C9: `render` (validating or not) and `fork` leave the receiver's
`source`, `placeholders` and `replacements` unchanged — their method bodies
write no field of `this`, which the state-passing translations `renderJS`
and `forkJS` make explicit — and `fork` returns a freshly built `Template`
whose source is the render result and whose placeholders are recomputed from
it. -/
theorem spec_c9_no_mutation (t : Template) (ov : JsLookup) (flag : Bool) :
    (renderJS t ov flag).2.source = t.source ∧
    (renderJS t ov flag).2.placeholders = t.placeholders ∧
    (renderJS t ov flag).2.replacements = t.replacements ∧
    (forkJS t ov).2 = t ∧
    (forkJS t ov).1.source = renderCore t ov ∧
    (forkJS t ov).1.placeholders =
      findPlaceholders (forkJS t ov).1.startTag (forkJS t ov).1.endTag
        (renderCore t ov) :=
  ⟨rfl, rfl, rfl, rfl, rfl, rfl⟩

/-- C10: `render` substitutes sequentially over a single working string in
map (first-seen) order, so an earlier replacement value containing a later
placeholder token is itself substituted: on `"{a} {b}"` with
`{a: "{b}", b: "X"}` the first step yields `"{b} {b}"` and the render
returns `"X X"`. -/
theorem spec_c10_sequential (t : Template) (ov : JsLookup) :
    renderCore t ov = t.placeholdersMap.foldl (renderStep t ov) t.source ∧
    renderCore (newTemplate "{a} {b}" none emptyLookup)
      (fun p => if p = "a" then some (.str "{b}")
                else if p = "b" then some (.str "X") else none) = "X X" ∧
    renderStep (newTemplate "{a} {b}" none emptyLookup)
      (fun p => if p = "a" then some (.str "{b}")
                else if p = "b" then some (.str "X") else none)
      "{a} {b}" ("{a}", "a") = "{b} {b}" :=
  ⟨rfl, by decide, by decide⟩

end Toolkit
